import Mathlib

/-!
conntracct: the event codec, the probe lifecycle and the fanout engine.

A shallow embedding of `pkg/bpf/event.go` and `pkg/bpf/probe.go`.

* Byte slices are lists of bytes, a byte is a `Fin 256`.
* Unsigned machine integers are natural numbers; every value the decoder
  produces is assembled from bytes and is therefore in range.
* The reads through `unsafe.Pointer` use the byte order of the machine; the
  byte order is a parameter of the decoder.
* Pointers to consumers are natural numbers, dereferenced through a heap.
-/

namespace Conntracct

/-! ## Bytes and integers -/

/-- One byte of a Go byte slice. -/
abbrev Byte := Fin 256

/-- Byte order of the machine the program runs on. -/
inductive ByteOrder where
  | littleEndian
  | bigEndian
  deriving DecidableEq, Repr

/-- Go slice expression `b[lo:hi]`. -/
def slice (b : List Byte) (lo hi : Nat) : List Byte :=
  (b.drop lo).take (hi - lo)

/-- Go index expression `b[i]`; every use below is behind the length guard. -/
def idx (b : List Byte) (i : Nat) : Byte :=
  b.getD i 0

/-- Value of a byte string read with the least significant byte first. -/
def leUint : List Byte → Nat
  | [] => 0
  | x :: rest => x.val + 256 * leUint rest

/-- Value of a byte string read with the most significant byte first. -/
def beUint (bs : List Byte) : Nat :=
  bs.foldl (fun acc x => 256 * acc + x.val) 0

/-- Read of `w` bytes at `&b[off]` through `unsafe.Pointer`, as in
`*(*uint64)(unsafe.Pointer(&b[0]))`: the bytes in the order of the machine. -/
def nativeUint (order : ByteOrder) (b : List Byte) (off w : Nat) : Nat :=
  match order with
  | .littleEndian => leUint (slice b off (off + w))
  | .bigEndian => beUint (slice b off (off + w))

/-- Go `binary.BigEndian.Uint16(s)`, which is `uint16(s[1]) | uint16(s[0])<<8`. -/
def bigEndianUint16 (s : List Byte) : Nat :=
  (idx s 1).val ||| ((idx s 0).val <<< 8)

/-! ## net.IP -/

/-- Go `net.IP`, a byte slice. -/
abbrev IP := List Byte

/-- Go `net.v4InV6Prefix`. -/
def v4InV6Prefix : List Byte :=
  [0, 0, 0, 0, 0, 0, 0, 0, 0, 0, 0xff, 0xff]

/-- Go `net.IPv4(a, b, c, d)`: the 16-byte form of the IPv4 address a.b.c.d,
the prefix `v4InV6Prefix` followed by the four bytes. -/
def netIPv4 (a b c d : Byte) : IP :=
  v4InV6Prefix ++ [a, b, c, d]

/-! ## Errors -/

/-- Error values of the package. `errProbeStarted` and `errProbeNotStarted`
are package variables declared outside the translated files. -/
inductive Error where
  /-- Result of `fmt.Errorf("input byte array incorrect length %d", n)`. -/
  | incorrectLength (n : Nat)
  | errProbeStarted
  | errProbeNotStarted
  /-- Result of `errors.Wrap(err, msg)`. -/
  | wrap (err : Error) (msg : String)
  /-- An error returned by the gobpf library. -/
  | elf (msg : String)
  deriving DecidableEq, Repr

/-! ## event.go -/

/-- Length of the struct sent by BPF. -/
def EventLength : Nat := 104

/-- An accounting event delivered to userspace from the Probe. -/
structure Event where
  Start : Nat
  Timestamp : Nat
  ConnectionID : Nat
  Connmark : Nat
  SrcAddr : IP
  DstAddr : IP
  PacketsOrig : Nat
  BytesOrig : Nat
  PacketsRet : Nat
  BytesRet : Nat
  SrcPort : Nat
  DstPort : Nat
  NetNS : Nat
  Proto : Nat
  deriving DecidableEq, Repr

/-- The zero value of `Event`, as made by `var ae Event`. -/
def Event.zero : Event :=
  ⟨0, 0, 0, 0, [], [], 0, 0, 0, 0, 0, 0, 0, 0⟩

/-- Loop of `isIPv4`: `false` at the first non-zero byte. -/
def isIPv4.loop : List Byte → Bool
  | [] => true
  | v :: rest => if v ≠ 0 then false else isIPv4.loop rest

/-- Checks if everything but the first 4 bytes of a byte slice is zero:
`for _, v := range s[4:]`. -/
def isIPv4 (s : List Byte) : Bool :=
  isIPv4.loop (s.drop 4)

/-- `Event.UnmarshalBinary`: the receiver after the call and the returned
error (`none` is `nil`). On the length error the receiver is untouched.
Otherwise every assignment of the source gives one field of the result; the
two ports are assigned only under the protocol test and keep the value the
receiver had before the call when it fails. -/
def Event.UnmarshalBinary (order : ByteOrder) (e : Event) (b : List Byte) :
    Event × Option Error :=
  if b.length ≠ EventLength then
    (e, some (Error.incorrectLength b.length))
  else
    ({ Start := nativeUint order b 0 8
       Timestamp := nativeUint order b 8 8
       ConnectionID := nativeUint order b 16 4
       Connmark := nativeUint order b 20 4
       SrcAddr :=
         if isIPv4 (slice b 24 40) then
           netIPv4 (idx b 24) (idx b 25) (idx b 26) (idx b 27)
         else slice b 24 40
       DstAddr :=
         if isIPv4 (slice b 40 56) then
           netIPv4 (idx b 40) (idx b 41) (idx b 42) (idx b 43)
         else slice b 40 56
       PacketsOrig := nativeUint order b 56 8
       BytesOrig := nativeUint order b 64 8
       PacketsRet := nativeUint order b 72 8
       BytesRet := nativeUint order b 80 8
       Proto := (idx b 96).val
       SrcPort :=
         if (idx b 96).val = 6 ∨ (idx b 96).val = 17 then
           bigEndianUint16 (slice b 88 90)
         else e.SrcPort
       DstPort :=
         if (idx b 96).val = 6 ∨ (idx b 96).val = 17 then
           bigEndianUint16 (slice b 90 92)
         else e.DstPort
       NetNS := nativeUint order b 92 4 },
     none)

/-! ## Types declared outside the translated files -/

/-- Go channel with a buffer, open, with no receiver blocked on it: its
capacity and the values queued in it. `make(chan T)` has capacity 0. -/
structure Chan (α : Type) where
  cap : Nat
  buf : List α

/-- Modelled from the spec: the statistics block of a Consumer, declared in a
file that is not among the sources. Monotonic counters of the events received
and of the events lost on a full inbox, and the current inbox depth. -/
structure ConsumerStats where
  eventsReceived : Nat
  eventsLost : Nat
  eventQueueLength : Nat
  deriving DecidableEq, Repr

/-- Modelled from the spec: `setQueueLength` updates the inbox-depth gauge. -/
def ConsumerStats.setQueueLength (s : ConsumerStats) (n : Nat) : ConsumerStats :=
  { s with eventQueueLength := n }

/-- Modelled from the spec: `incrEventsReceived` increments the received-counter. -/
def ConsumerStats.incrEventsReceived (s : ConsumerStats) : ConsumerStats :=
  { s with eventsReceived := s.eventsReceived + 1 }

/-- Modelled from the spec: `incrEventsLost` increments the per-consumer
lost-counter. -/
def ConsumerStats.incrEventsLost (s : ConsumerStats) : ConsumerStats :=
  { s with eventsLost := s.eventsLost + 1 }

/-- Modelled from the spec: a Consumer, declared in a file that is not among
the sources. Filter flags (what `WantUpdate()` and `WantDestroy()` return), a
bounded inbox of Events and a stats block. -/
structure Consumer where
  events : Chan Event
  wantUpdate : Bool
  wantDestroy : Bool
  stats : ConsumerStats

/-- Modelled from the spec: `c.WantUpdate()`, the update flag of the filter. -/
def Consumer.WantUpdate (c : Consumer) : Bool := c.wantUpdate

/-- Modelled from the spec: `c.WantDestroy()`, the destroy flag of the filter. -/
def Consumer.WantDestroy (c : Consumer) : Bool := c.wantDestroy

/-- Modelled from the spec: the statistics of a Probe, declared in a file
that is not among the sources. Monotonic counters of the update events, the
destroy events and the events lost in the kernel ring buffer. -/
structure ProbeStats where
  perfEventsUpdate : Nat
  perfEventsDestroy : Nat
  perfEventsLost : Nat
  deriving DecidableEq, Repr

/-- A kprobe of the target kernel (`kernel.Probes` holds a list of them). -/
structure Kprobe where
  Name : String
  deriving DecidableEq, Repr

/-- The target kernel of a probe, `kernel.Kernel`. -/
structure Kernel where
  Version : String
  Probes : List Kprobe
  deriving DecidableEq, Repr

/-- State of a gobpf `elf.Module` as far as the Probe drives it: the kprobes
enabled so far and the number of calls of `Close`. -/
structure Module where
  enabled : List Kprobe
  closeCalls : Nat
  deriving DecidableEq, Repr

/-- A gobpf `elf.PerfMap`: the name of its map and whether it is polling. -/
structure PerfMap where
  name : String
  polling : Bool
  deriving DecidableEq, Repr

/-- What the calls into gobpf return: `nil` is `none`. -/
structure Elf where
  enableKprobe : Kprobe → Option Error
  initPerfMap : String → Option Error
  close : Option Error

/-- A channel field of the Probe: its capacity and whether `close` was called
on it. A field that is `nil` is `none`. -/
structure ProbeChan where
  cap : Nat
  closed : Bool
  deriving DecidableEq, Repr

/-- Go `close(ch)`: `none` is the panic on a nil channel or on a channel that
is closed already. -/
def closeChan : Option ProbeChan → Option (Option ProbeChan)
  | none => none
  | some ch => if ch.closed then none else some (some { ch with closed := true })

/-! ## probe.go -/

def perfUpdateMap : String := "perf_acct_update"

def perfDestroyMap : String := "perf_acct_end"

/-- An instance of a BPF probe running in the kernel. The consumers are
pointers, dereferenced in `heap`; the two mutexes are not modelled, every
method below runs alone. `perfWorkers` and `lostWorkers` count the goroutines
started, `errDelivered` lists the errors a receiver took from `errChan`. -/
structure Probe where
  module : Module
  perfUpdate : Option PerfMap
  perfDestroy : Option PerfMap
  kernel : Kernel
  consumers : List Nat
  heap : Nat → Consumer
  lostChan : Option ProbeChan
  perfUpdateChan : Option ProbeChan
  perfDestroyChan : Option ProbeChan
  errChan : Option ProbeChan
  started : Bool
  stats : ProbeStats
  perfWorkers : Nat
  lostWorkers : Nat
  errDelivered : List Error

/-- The loop of `Start` over `ap.kernel.Probes`: enables the kprobes in order
and returns at the first error, wrapped. -/
def enableKprobes (elf : Elf) (m : Module) : List Kprobe → Module × Option Error
  | [] => (m, none)
  | p :: ps =>
    match elf.enableKprobe p with
    | some err => (m, some (Error.wrap err "enabling kprobe"))
    | none => enableKprobes elf { m with enabled := m.enabled ++ [p] } ps

/-- `Probe.Start`: the Probe after the call and the returned error. -/
def Probe.Start (elf : Elf) (ap : Probe) : Probe × Option Error :=
  if ap.started then
    (ap, some Error.errProbeStarted)
  else
    match enableKprobes elf ap.module ap.kernel.Probes with
    | (m, some err) => ({ ap with module := m }, some err)
    | (m, none) =>
      let ap1 : Probe :=
        { ap with
          module := m
          perfUpdateChan := some ⟨1024, false⟩
          perfDestroyChan := some ⟨1024, false⟩
          lostChan := some ⟨0, false⟩
          errChan := some ⟨0, false⟩ }
      match elf.initPerfMap perfUpdateMap with
      | some err => (ap1, some (Error.wrap err ("InitPerfMap " ++ perfUpdateMap)))
      | none =>
        match elf.initPerfMap perfDestroyMap with
        | some err =>
          ({ ap1 with perfUpdate := some ⟨perfUpdateMap, false⟩ },
            some (Error.wrap err ("InitPerfMap " ++ perfUpdateMap)))
        | none =>
          ({ ap1 with
             perfUpdate := some ⟨perfUpdateMap, true⟩
             perfDestroy := some ⟨perfDestroyMap, true⟩
             perfWorkers := ap1.perfWorkers + 1
             lostWorkers := ap1.lostWorkers + 1
             started := true },
           none)

/-- How a call of `Stop` ends. -/
inductive Outcome where
  /-- The call returned this error (`none` is `nil`). -/
  | returned (err : Option Error)
  /-- The call panicked in `close` of a channel. -/
  | panicked
  deriving DecidableEq, Repr

/-- `Probe.Stop`: the Probe after the call and how the call ended. The four
`close` statements run in the order of the source; the first one that panics
ends the call. -/
def Probe.Stop (elf : Elf) (ap : Probe) : Probe × Outcome :=
  if !ap.started then
    (ap, Outcome.returned (some Error.errProbeNotStarted))
  else
    let ap1 : Probe :=
      { ap with module := { ap.module with closeCalls := ap.module.closeCalls + 1 } }
    match elf.close with
    | some err => (ap1, Outcome.returned (some err))
    | none =>
      match closeChan ap1.lostChan with
      | none => (ap1, Outcome.panicked)
      | some l =>
        match closeChan ap1.perfUpdateChan with
        | none => ({ ap1 with lostChan := l }, Outcome.panicked)
        | some u =>
          match closeChan ap1.perfDestroyChan with
          | none => ({ ap1 with lostChan := l, perfUpdateChan := u }, Outcome.panicked)
          | some d =>
            match closeChan ap1.errChan with
            | none =>
              ({ ap1 with lostChan := l, perfUpdateChan := u, perfDestroyChan := d },
                Outcome.panicked)
            | some r =>
              ({ ap1 with
                 lostChan := l, perfUpdateChan := u, perfDestroyChan := d, errChan := r },
               Outcome.returned none)

/-- `Probe.sendError`: a send on the unbuffered `errChan` that does not
block. `ready` says whether a receiver is waiting on the channel; the result
holds `true` when the error was sent. -/
def Probe.sendError (ap : Probe) (ready : Bool) (err : Error) : Probe × Bool :=
  if ready then
    ({ ap with errDelivered := ap.errDelivered ++ [err] }, true)
  else
    (ap, false)

/-- The `select` of `fanoutEvent` on one consumer: a send that does not block.
With room in the inbox the event is queued, the queue length is recorded and
the received counter incremented; otherwise the lost counter is incremented. -/
def Consumer.send (c : Consumer) (ae : Event) : Consumer :=
  if c.events.buf.length < c.events.cap then
    let events : Chan Event := { c.events with buf := c.events.buf ++ [ae] }
    { c with
      events := events
      stats := (c.stats.setQueueLength events.buf.length).incrEventsReceived }
  else
    { c with stats := c.stats.incrEventsLost }

/-- The loop of `fanoutEvent` over `ap.consumers`. -/
def fanoutLoop (ae : Event) (update : Bool) :
    List Nat → (Nat → Consumer) → (Nat → Consumer)
  | [], heap => heap
  | p :: ps, heap =>
    let c := heap p
    if (update && c.WantUpdate) || (!update && c.WantDestroy) then
      fanoutLoop ae update ps (Function.update heap p (c.send ae))
    else
      fanoutLoop ae update ps heap

/-- `Probe.fanoutEvent`: sends the given Event to all registered consumers.
The update flag says whether the event is an update (true) or a destroy
(false) event. -/
def Probe.fanoutEvent (ap : Probe) (ae : Event) (update : Bool) : Probe :=
  { ap with heap := fanoutLoop ae update ap.consumers ap.heap }

/-- Modelled from the spec: `incrPerfEventsUpdate` increments the counter of
update events. -/
def ProbeStats.incrPerfEventsUpdate (s : ProbeStats) : ProbeStats :=
  { s with perfEventsUpdate := s.perfEventsUpdate + 1 }

/-- Modelled from the spec: `incrPerfEventsDestroy` increments the counter of
destroy events. -/
def ProbeStats.incrPerfEventsDestroy (s : ProbeStats) : ProbeStats :=
  { s with perfEventsDestroy := s.perfEventsDestroy + 1 }

/-- Modelled from the spec: the method `unmarshalBinary` that `perfWorker`
calls is not among the sources, which hold `UnmarshalBinary` only; the spec
knows one codec, so the call is given the behaviour of `UnmarshalBinary`. -/
def Event.unmarshalBinary (order : ByteOrder) (e : Event) (b : List Byte) :
    Event × Option Error :=
  Event.UnmarshalBinary order e b

/-- What one pass of the `select` of `perfWorker` meets: the case that fired
(`update`), the record and the `ok` flag of the receive, and whether a
receiver is waiting on `errChan` should an error be sent in this pass. -/
structure Recv where
  update : Bool
  eb : List Byte
  ok : Bool
  errReady : Bool
  deriving DecidableEq, Repr

/-- One pass of the loop body of `perfWorker`; the flag is `false` when the
body returns (channel closed). -/
def Probe.perfWorkerStep (order : ByteOrder) (ap : Probe) (r : Recv) : Probe × Bool :=
  let ap1 : Probe :=
    if r.update then { ap with stats := ap.stats.incrPerfEventsUpdate }
    else { ap with stats := ap.stats.incrPerfEventsDestroy }
  if !r.ok then
    (ap1, false)
  else
    let dec := Event.unmarshalBinary order Event.zero r.eb
    let ap2 : Probe :=
      match dec.2 with
      | some err =>
        (ap1.sendError r.errReady (Error.wrap err "error unmarshaling Event byte array")).1
      | none => ap1
    (ap2.fanoutEvent dec.1 r.update, true)

/-- `Probe.perfWorker` run over the receives its `select` meets, in order:
the Probe when the worker has returned or is waiting for the next receive. -/
def Probe.perfWorker (order : ByteOrder) (ap : Probe) : List Recv → Probe
  | [] => ap
  | r :: rest =>
    match ap.perfWorkerStep order r with
    | (ap1, false) => ap1
    | (ap1, true) => Probe.perfWorker order ap1 rest

/-- The events of a list fanned out one after the other, each with its
update flag, as `perfWorker` does with the records it decodes. -/
def Probe.fanoutAll (ap : Probe) : List (Event × Bool) → Probe
  | [] => ap
  | ev :: rest => Probe.fanoutAll (ap.fanoutEvent ev.1 ev.2) rest

/-! ## Probes and consumers of the examples -/

/-- A Consumer as it is registered: an empty inbox of the given capacity and
zeroed statistics. -/
def newConsumer (cap : Nat) (wantUpdate wantDestroy : Bool) : Consumer :=
  { events := ⟨cap, []⟩, wantUpdate := wantUpdate, wantDestroy := wantDestroy,
    stats := ⟨0, 0, 0⟩ }

/-- Three consumers: 0 wants updates (capacity 1), 1 wants destroys
(capacity 2), 2 wants both (capacity 4). -/
def demoHeap : Nat → Consumer
  | 0 => newConsumer 1 true false
  | 1 => newConsumer 2 false true
  | 2 => newConsumer 4 true true
  | _ => newConsumer 0 false false

/-- A Probe as `NewProbe` leaves it (module loaded, no channel made, not
started), with the three consumers registered. -/
def loadedProbe : Probe :=
  { module := ⟨[], 0⟩, perfUpdate := none, perfDestroy := none,
    kernel := ⟨"4.19.0", [⟨"kprobe/__nf_ct_refresh_acct"⟩, ⟨"kprobe/nf_conntrack_free"⟩]⟩,
    consumers := [0, 1, 2], heap := demoHeap,
    lostChan := none, perfUpdateChan := none, perfDestroyChan := none, errChan := none,
    started := false, stats := ⟨0, 0, 0⟩, perfWorkers := 0, lostWorkers := 0,
    errDelivered := [] }

/-- A gobpf library whose calls all succeed. -/
def okElf : Elf :=
  { enableKprobe := fun _ => none, initPerfMap := fun _ => none, close := none }

/-- A gobpf library whose `Close` fails. -/
def closeFailsElf : Elf :=
  { okElf with close := some (Error.elf "close failed") }

/-- The Probe after a `Start` that succeeded. -/
def startedProbe : Probe :=
  (loadedProbe.Start okElf).1

/-! ## The wire layout of the specification

The sources hold no encoder. The one below follows the words of the
specification: numeric fields in the byte order of the machine at the offsets
`UnmarshalBinary` reads, the two ports big-endian at bytes [88:92), each
address in a 16-byte slot, an IPv4 address in the first 4 bytes followed by
12 zero bytes. -/

/-- The `w` low bytes of `x`, least significant first. -/
def putLE : Nat → Nat → List Byte
  | 0, _ => []
  | w + 1, x => ⟨x % 256, Nat.mod_lt x (by decide)⟩ :: putLE w (x / 256)

/-- The `w` low bytes of `x`, most significant first. -/
def putBE (w x : Nat) : List Byte :=
  (putLE w x).reverse

/-- The `w` low bytes of `x` in the byte order of the machine. -/
def putNative (order : ByteOrder) (w x : Nat) : List Byte :=
  match order with
  | .littleEndian => putLE w x
  | .bigEndian => putBE w x

/-- Go `net.IP.To4`: the 4-byte form of an IPv4 address, `none` (`nil`) when
the address is not an IPv4 address. -/
def To4 (ip : IP) : Option IP :=
  if ip.length = 4 then some ip
  else if ip.length = 16 ∧ ip.take 12 = v4InV6Prefix then some (ip.drop 12)
  else none

/-- The 16-byte slot of an address: an IPv4 address in the first 4 bytes
followed by 12 zero bytes, any other 16-byte address as it is. An address
that is neither has no slot. -/
def specEncodeAddr (ip : IP) : Option (List Byte) :=
  match To4 ip with
  | some v4 => some (v4 ++ List.replicate 12 0)
  | none => if ip.length = 16 then some ip else none

/-- The record of an Event whose address slots are `src` and `dst`: the
fields at the offsets `UnmarshalBinary` reads. Bytes [97:104) are padding. -/
def specRecord (order : ByteOrder) (e : Event) (src dst : List Byte) : List Byte :=
  putNative order 8 e.Start ++ (putNative order 8 e.Timestamp ++
    (putNative order 4 e.ConnectionID ++ (putNative order 4 e.Connmark ++
    (src ++ (dst ++ (putNative order 8 e.PacketsOrig ++
    (putNative order 8 e.BytesOrig ++ (putNative order 8 e.PacketsRet ++
    (putNative order 8 e.BytesRet ++ (putBE 2 e.SrcPort ++ (putBE 2 e.DstPort ++
    (putNative order 4 e.NetNS ++ (putLE 1 e.Proto ++
    List.replicate 7 0)))))))))))))

/-- The 104-byte record of an Event, following the specification; `none` when
one of its addresses has no slot. -/
def specEncode (order : ByteOrder) (e : Event) : Option (List Byte) :=
  match specEncodeAddr e.SrcAddr, specEncodeAddr e.DstAddr with
  | some src, some dst => some (specRecord order e src dst)
  | _, _ => none

/-- Every numeric field of the Event is a value of its Go type. -/
def Event.InRange (e : Event) : Prop :=
  e.Start < 2 ^ 64 ∧ e.Timestamp < 2 ^ 64 ∧ e.ConnectionID < 2 ^ 32 ∧
  e.Connmark < 2 ^ 32 ∧ e.PacketsOrig < 2 ^ 64 ∧ e.BytesOrig < 2 ^ 64 ∧
  e.PacketsRet < 2 ^ 64 ∧ e.BytesRet < 2 ^ 64 ∧ e.SrcPort < 2 ^ 16 ∧
  e.DstPort < 2 ^ 16 ∧ e.NetNS < 2 ^ 32 ∧ e.Proto < 2 ^ 8

instance (e : Event) : Decidable e.InRange := by
  unfold Event.InRange
  infer_instance

/-- The address is 16 bytes long and one of its bytes [4:16) is not zero.
Every address made by `net.IPv4` is of this kind (byte 10 is 0xff). -/
def slotAddr (ip : IP) : Prop :=
  ip.length = 16 ∧ ∃ i, i < 16 ∧ (4 ≤ i ∧ idx ip i ≠ 0)

instance (ip : IP) : Decidable (slotAddr ip) := by
  unfold slotAddr
  infer_instance

/-- The ports are zero unless the protocol is TCP (6) or UDP (17). -/
def Event.portsGated (e : Event) : Prop :=
  e.Proto = 6 ∨ e.Proto = 17 ∨ (e.SrcPort = 0 ∧ e.DstPort = 0)

instance (e : Event) : Decidable e.portsGated := by
  unfold Event.portsGated
  infer_instance

/-- Encoding the Event and decoding the record into a zero-valued Event gives
the Event back, with no error. -/
def roundTrips (order : ByteOrder) (e : Event) : Prop :=
  (specEncode order e).map (fun b => Event.UnmarshalBinary order Event.zero b) =
    some (e, none)

instance (order : ByteOrder) (e : Event) : Decidable (roundTrips order e) := by
  unfold roundTrips
  infer_instance

/-- A record of 104 bytes, all zero but the protocol byte. -/
def protoOnlyRecord (proto : Byte) : List Byte :=
  List.replicate 96 0 ++ [proto] ++ List.replicate 7 0

/-- An ICMP event (protocol 1) with a source port, between 10.0.0.1 and
10.0.0.2. -/
def icmpEventWithPort : Event :=
  { Event.zero with
    SrcAddr := netIPv4 10 0 0 1, DstAddr := netIPv4 10 0 0 2, SrcPort := 80, Proto := 1 }

/-- A TCP event from the IPv6 address 2001:db8:: to 2001:db8::1. -/
def v6ZeroSuffixEvent : Event :=
  { Event.zero with
    SrcAddr := [0x20, 0x01, 0x0d, 0xb8, 0, 0, 0, 0, 0, 0, 0, 0, 0, 0, 0, 0]
    DstAddr := [0x20, 0x01, 0x0d, 0xb8, 0, 0, 0, 0, 0, 0, 0, 0, 0, 0, 0, 1]
    SrcPort := 443, DstPort := 50000, Proto := 6 }

/-- An UDP event between 192.0.2.1 and the IPv6 address 2001:db8::1. -/
def udpEvent : Event :=
  { Start := 1600000000000000000, Timestamp := 123456789, ConnectionID := 4000000000,
    Connmark := 7, SrcAddr := netIPv4 192 0 2 1,
    DstAddr := [0x20, 0x01, 0x0d, 0xb8, 0, 0, 0, 0, 0, 0, 0, 0, 0, 0, 0, 1],
    PacketsOrig := 10, BytesOrig := 1500, PacketsRet := 8, BytesRet := 900,
    SrcPort := 53, DstPort := 40000, NetNS := 4026531840, Proto := 17 }

/-- The 16 bytes of the record from offset `lo` on. -/
def slotBytes (b : List Byte) (lo : Nat) : List Byte :=
  (List.range 16).map (fun i => idx b (lo + i))

/-! ## Lemmas on slices -/

theorem idx_eq_getElem (b : List Byte) (i : Nat) (h : i < b.length) : idx b i = b[i] := by
  simp [idx, List.getD_eq_getElem?_getD, List.getElem?_eq_getElem h]

theorem slice_length (b : List Byte) (lo hi : Nat) (h : hi ≤ b.length) :
    (slice b lo hi).length = hi - lo := by
  simp [slice]
  omega

theorem slice_eq_map (b : List Byte) (lo hi : Nat) (h : hi ≤ b.length) :
    slice b lo hi = (List.range (hi - lo)).map (fun i => idx b (lo + i)) := by
  apply List.ext_getElem
  · simp [slice_length b lo hi h]
  · intro n h1 h2
    have hn : n < hi - lo := by simpa using h2
    simp [slice, idx_eq_getElem b (lo + n) (by omega)]

theorem isIPv4_loop_iff (l : List Byte) : isIPv4.loop l = true ↔ ∀ x ∈ l, x = 0 := by
  induction l with
  | nil => simp [isIPv4.loop]
  | cons v rest ih =>
    by_cases hv : v = 0
    · simp [isIPv4.loop, hv, ih]
    · simp [isIPv4.loop, hv]

theorem isIPv4_slice_iff (b : List Byte) (lo : Nat) (h : lo + 16 ≤ b.length) :
    isIPv4 (slice b lo (lo + 16)) = true ↔ ∀ i, 4 ≤ i → i < 16 → idx b (lo + i) = 0 := by
  rw [isIPv4, isIPv4_loop_iff, slice_eq_map b lo (lo + 16) h]
  have h16 : lo + 16 - lo = 16 := by omega
  rw [h16]
  constructor
  · intro hall i h4 hi
    apply hall
    rw [← List.map_drop]
    refine List.mem_map.mpr ⟨i, ?_, rfl⟩
    rw [List.mem_iff_getElem]
    refine ⟨i - 4, by simp; omega, ?_⟩
    simp
    omega
  · intro hall x hx
    rw [← List.map_drop] at hx
    obtain ⟨i, hi, rfl⟩ := List.mem_map.mp hx
    have hi2 := List.mem_of_mem_drop hi
    have hi3 : i < 16 := by simpa using hi2
    rw [List.mem_iff_getElem] at hi
    obtain ⟨n, hn, hni⟩ := hi
    simp at hni hn
    exact hall i (by omega) hi3

/-! ## The codec -/

/-- C1: `UnmarshalBinary` returns an error for every byte slice whose length
is not 104, the error that reports the length, and leaves the receiver as it
was; it returns no error for every byte slice of length 104. In particular it
fails on the lengths 0, 1, 103, 105 and 200. -/
theorem UnmarshalBinary_length_guard (order : ByteOrder) (e : Event) (b : List Byte) :
    ((Event.UnmarshalBinary order e b).2 = none ↔ b.length = 104) ∧
    (b.length ≠ 104 →
      Event.UnmarshalBinary order e b = (e, some (Error.incorrectLength b.length))) ∧
    (b.length ∈ [0, 1, 103, 105, 200] → (Event.UnmarshalBinary order e b).2 ≠ none) := by
  have key : b.length ≠ 104 →
      Event.UnmarshalBinary order e b = (e, some (Error.incorrectLength b.length)) := by
    intro h
    simp [Event.UnmarshalBinary, EventLength, h]
  refine ⟨?_, key, ?_⟩
  · constructor
    · intro h
      by_contra hne
      rw [key hne] at h
      simp at h
    · intro h
      simp [Event.UnmarshalBinary, EventLength, h]
  · intro hmem
    have hne : b.length ≠ 104 := by
      intro h
      rw [h] at hmem
      simp at hmem
    rw [key hne]
    simp

/-- Witness of C1: the empty slice is rejected with the length error and
the receiver keeps its fields. -/
theorem UnmarshalBinary_length_guard_witness :
    ([] : List Byte).length ≠ 104 ∧
    Event.UnmarshalBinary ByteOrder.bigEndian udpEvent [] =
      (udpEvent, some (Error.incorrectLength 0)) :=
  ⟨by decide, (UnmarshalBinary_length_guard ByteOrder.bigEndian udpEvent []).2.1 (by decide)⟩

/-- The address `UnmarshalBinary` decodes from the slot at offset `lo`. -/
theorem decoded_slot (b : List Byte) (lo : Nat) (h : lo + 16 ≤ b.length) :
    ((∀ i, 4 ≤ i → i < 16 → idx b (lo + i) = 0) →
      (if isIPv4 (slice b lo (lo + 16)) then
          netIPv4 (idx b lo) (idx b (lo + 1)) (idx b (lo + 2)) (idx b (lo + 3))
        else slice b lo (lo + 16)) =
        netIPv4 (idx b lo) (idx b (lo + 1)) (idx b (lo + 2)) (idx b (lo + 3))) ∧
    ((∃ i, 4 ≤ i ∧ i < 16 ∧ idx b (lo + i) ≠ 0) →
      (if isIPv4 (slice b lo (lo + 16)) then
          netIPv4 (idx b lo) (idx b (lo + 1)) (idx b (lo + 2)) (idx b (lo + 3))
        else slice b lo (lo + 16)) = slotBytes b lo) := by
  constructor
  · intro hz
    rw [if_pos ((isIPv4_slice_iff b lo h).mpr hz)]
  · intro hnz
    have hf : ¬ isIPv4 (slice b lo (lo + 16)) = true := by
      rw [isIPv4_slice_iff b lo h]
      obtain ⟨i, h4, hi, hne⟩ := hnz
      intro hall
      exact hne (hall i h4 hi)
    rw [if_neg hf, slice_eq_map b lo (lo + 16) h]
    have h16 : lo + 16 - lo = 16 := by omega
    rw [h16, slotBytes]

/-- C2: for every 104-byte input and both address slots (source at bytes
[24:40), destination at bytes [40:56)): when bytes [4:16) of the slot are all
zero the decoded address is `net.IPv4` of the first four bytes of the slot
(0.0.0.0 for a slot that is all zero); when a byte in [4:16) of the slot is
not zero the decoded address is the 16 bytes of the slot. -/
theorem UnmarshalBinary_addresses (order : ByteOrder) (e : Event) (b : List Byte)
    (hlen : b.length = 104) :
    ((∀ i, 4 ≤ i → i < 16 → idx b (24 + i) = 0) →
      (Event.UnmarshalBinary order e b).1.SrcAddr =
        netIPv4 (idx b 24) (idx b 25) (idx b 26) (idx b 27)) ∧
    ((∃ i, 4 ≤ i ∧ i < 16 ∧ idx b (24 + i) ≠ 0) →
      (Event.UnmarshalBinary order e b).1.SrcAddr = slotBytes b 24) ∧
    ((∀ i, i < 16 → idx b (24 + i) = 0) →
      (Event.UnmarshalBinary order e b).1.SrcAddr = netIPv4 0 0 0 0) ∧
    ((∀ i, 4 ≤ i → i < 16 → idx b (40 + i) = 0) →
      (Event.UnmarshalBinary order e b).1.DstAddr =
        netIPv4 (idx b 40) (idx b 41) (idx b 42) (idx b 43)) ∧
    ((∃ i, 4 ≤ i ∧ i < 16 ∧ idx b (40 + i) ≠ 0) →
      (Event.UnmarshalBinary order e b).1.DstAddr = slotBytes b 40) ∧
    ((∀ i, i < 16 → idx b (40 + i) = 0) →
      (Event.UnmarshalBinary order e b).1.DstAddr = netIPv4 0 0 0 0) := by
  have hs := decoded_slot b 24 (by omega)
  have hd := decoded_slot b 40 (by omega)
  have hsrc : (Event.UnmarshalBinary order e b).1.SrcAddr =
      (if isIPv4 (slice b 24 (24 + 16)) then
          netIPv4 (idx b 24) (idx b (24 + 1)) (idx b (24 + 2)) (idx b (24 + 3))
        else slice b 24 (24 + 16)) := by
    simp [Event.UnmarshalBinary, EventLength, hlen]
  have hdst : (Event.UnmarshalBinary order e b).1.DstAddr =
      (if isIPv4 (slice b 40 (40 + 16)) then
          netIPv4 (idx b 40) (idx b (40 + 1)) (idx b (40 + 2)) (idx b (40 + 3))
        else slice b 40 (40 + 16)) := by
    simp [Event.UnmarshalBinary, EventLength, hlen]
  rw [hsrc, hdst]
  refine ⟨hs.1, hs.2, ?_, hd.1, hd.2, ?_⟩
  · intro hz
    rw [hs.1 (fun i _ hi => hz i hi)]
    have h0 := hz 0 (by omega)
    have h1 := hz 1 (by omega)
    have h2 := hz 2 (by omega)
    have h3 := hz 3 (by omega)
    simp only [Nat.add_zero] at h0
    rw [h0, h1, h2, h3]
  · intro hz
    rw [hd.1 (fun i _ hi => hz i hi)]
    have h0 := hz 0 (by omega)
    have h1 := hz 1 (by omega)
    have h2 := hz 2 (by omega)
    have h3 := hz 3 (by omega)
    simp only [Nat.add_zero] at h0
    rw [h0, h1, h2, h3]

/-- Witness of C2: a record whose source slot holds 10.0.0.1 followed by
zeroes and whose destination slot is all zero. -/
theorem UnmarshalBinary_addresses_witness :
    (List.replicate 24 (0 : Byte) ++ [10, 0, 0, 1] ++ List.replicate 76 0).length = 104 ∧
    (Event.UnmarshalBinary ByteOrder.littleEndian Event.zero
      (List.replicate 24 (0 : Byte) ++ [10, 0, 0, 1] ++ List.replicate 76 0)).1.DstAddr =
      netIPv4 0 0 0 0 :=
  ⟨by decide,
    (UnmarshalBinary_addresses ByteOrder.littleEndian Event.zero
      (List.replicate 24 (0 : Byte) ++ [10, 0, 0, 1] ++ List.replicate 76 0)
      (by decide)).2.2.2.2.2 (by decide)⟩

theorem bigEndianUint16_eq (s : List Byte) :
    bigEndianUint16 s = 256 * (idx s 0).val + (idx s 1).val := by
  have h := Nat.mul_add_lt_is_or (i := 8) (b := (idx s 1).val) (idx s 1).isLt (idx s 0).val
  rw [bigEndianUint16, Nat.shiftLeft_eq, Nat.lor_comm, Nat.mul_comm]
  simpa using h.symm

theorem idx_slice (b : List Byte) (lo hi k : Nat) (h : hi ≤ b.length) (hk : k < hi - lo) :
    idx (slice b lo hi) k = idx b (lo + k) := by
  rw [slice_eq_map b lo hi h, idx]
  simp [List.getD_eq_getElem?_getD, List.getElem?_eq_getElem, hk]

theorem bigEndianUint16_slice (b : List Byte) (lo : Nat) (h : lo + 2 ≤ b.length) :
    bigEndianUint16 (slice b lo (lo + 2)) = 256 * (idx b lo).val + (idx b (lo + 1)).val := by
  rw [bigEndianUint16_eq, idx_slice b lo (lo + 2) 0 h (by omega),
    idx_slice b lo (lo + 2) 1 h (by omega)]
  rfl

/-- C3: for every 104-byte input decoded into a zero-valued Event: when the
protocol byte (offset 96) is 6 or 17, `SrcPort` is the big-endian value of
bytes [88:90) and `DstPort` the big-endian value of bytes [90:92); for every
other protocol both ports are 0, whatever bytes [88:92) hold. -/
theorem UnmarshalBinary_port_gating (order : ByteOrder) (b : List Byte)
    (hlen : b.length = 104) :
    ((idx b 96).val = 6 ∨ (idx b 96).val = 17 →
      (Event.UnmarshalBinary order Event.zero b).1.SrcPort =
        256 * (idx b 88).val + (idx b 89).val ∧
      (Event.UnmarshalBinary order Event.zero b).1.DstPort =
        256 * (idx b 90).val + (idx b 91).val) ∧
    (¬ ((idx b 96).val = 6 ∨ (idx b 96).val = 17) →
      (Event.UnmarshalBinary order Event.zero b).1.SrcPort = 0 ∧
      (Event.UnmarshalBinary order Event.zero b).1.DstPort = 0) := by
  have h88 := bigEndianUint16_slice b 88 (by omega)
  have h90 := bigEndianUint16_slice b 90 (by omega)
  constructor
  · intro hp
    simp only [Event.UnmarshalBinary, EventLength, hlen, ne_eq, not_true_eq_false,
      if_false, if_pos hp]
    exact ⟨h88, h90⟩
  · intro hp
    simp only [Event.UnmarshalBinary, EventLength, hlen, ne_eq, not_true_eq_false,
      if_false, if_neg hp]
    exact ⟨rfl, rfl⟩

/-- Witness of C3: an ICMP record (protocol 1) of 104 bytes. -/
theorem UnmarshalBinary_port_gating_witness :
    (protoOnlyRecord 1).length = 104 ∧
    (Event.UnmarshalBinary ByteOrder.littleEndian Event.zero (protoOnlyRecord 1)).1.SrcPort = 0 ∧
    (Event.UnmarshalBinary ByteOrder.littleEndian Event.zero (protoOnlyRecord 1)).1.DstPort = 0 :=
  ⟨by decide,
    (UnmarshalBinary_port_gating ByteOrder.littleEndian (protoOnlyRecord 1) (by decide)).2
      (by decide)⟩

/-- C10, counterexample: the record of an ICMP event (protocol 1) decodes
without error into a zero-valued Event and into an Event whose `SrcPort` was
80 before the call, and the two results differ: the second keeps port 80. -/
theorem UnmarshalBinary_prior_ports_survive :
    (protoOnlyRecord 1).length = 104 ∧
    (Event.UnmarshalBinary ByteOrder.littleEndian Event.zero (protoOnlyRecord 1)).2 = none ∧
    (Event.UnmarshalBinary ByteOrder.littleEndian { Event.zero with SrcPort := 80 }
      (protoOnlyRecord 1)).2 = none ∧
    (Event.UnmarshalBinary ByteOrder.littleEndian Event.zero (protoOnlyRecord 1)).1.SrcPort = 0 ∧
    (Event.UnmarshalBinary ByteOrder.littleEndian { Event.zero with SrcPort := 80 }
      (protoOnlyRecord 1)).1.SrcPort = 80 ∧
    (Event.UnmarshalBinary ByteOrder.littleEndian Event.zero (protoOnlyRecord 1)).1 ≠
      (Event.UnmarshalBinary ByteOrder.littleEndian { Event.zero with SrcPort := 80 }
        (protoOnlyRecord 1)).1 := by
  refine ⟨by decide, by decide, by decide, by decide, by decide, ?_⟩
  intro h
  have h2 := congrArg Event.SrcPort h
  revert h2
  decide

/-- C10, amended: for every 104-byte input, decoding the same bytes into two
Events succeeds on both, and the two results agree on every field but
`SrcPort` and `DstPort`; they are equal when the protocol byte is 6 or 17, and
when the two Events had the same ports before the call. -/
theorem UnmarshalBinary_determined_up_to_ports (order : ByteOrder) (e1 e2 : Event)
    (b : List Byte) (hlen : b.length = 104) :
    (Event.UnmarshalBinary order e1 b).2 = none ∧
    (Event.UnmarshalBinary order e2 b).2 = none ∧
    (Event.UnmarshalBinary order e1 b).1 =
      { (Event.UnmarshalBinary order e2 b).1 with
        SrcPort := (Event.UnmarshalBinary order e1 b).1.SrcPort
        DstPort := (Event.UnmarshalBinary order e1 b).1.DstPort } ∧
    (((idx b 96).val = 6 ∨ (idx b 96).val = 17) ∨
        (e1.SrcPort = e2.SrcPort ∧ e1.DstPort = e2.DstPort) →
      (Event.UnmarshalBinary order e1 b).1 = (Event.UnmarshalBinary order e2 b).1) := by
  refine ⟨?_, ?_, ?_, ?_⟩
  · simp [Event.UnmarshalBinary, EventLength, hlen]
  · simp [Event.UnmarshalBinary, EventLength, hlen]
  · simp [Event.UnmarshalBinary, EventLength, hlen]
  · intro h
    rcases h with hp | ⟨hs, hd⟩
    · simp [Event.UnmarshalBinary, EventLength, hlen, hp]
    · simp [Event.UnmarshalBinary, EventLength, hlen, hs, hd]

/-- Witness of C10, amended: a TCP record decoded into two Events with
different ports gives equal Events. -/
theorem UnmarshalBinary_determined_up_to_ports_witness :
    (protoOnlyRecord 6).length = 104 ∧
    (Event.UnmarshalBinary ByteOrder.littleEndian Event.zero (protoOnlyRecord 6)).1 =
      (Event.UnmarshalBinary ByteOrder.littleEndian { Event.zero with SrcPort := 80 }
        (protoOnlyRecord 6)).1 :=
  ⟨by decide,
    (UnmarshalBinary_determined_up_to_ports ByteOrder.littleEndian Event.zero
      { Event.zero with SrcPort := 80 } (protoOnlyRecord 6) (by decide)).2.2.2
      (Or.inl (by decide))⟩

/-! ## The round trip -/

theorem putLE_length (w x : Nat) : (putLE w x).length = w := by
  induction w generalizing x with
  | zero => rfl
  | succ w ih => simp [putLE, ih]

theorem putBE_length (w x : Nat) : (putBE w x).length = w := by
  simp [putBE, putLE_length]

theorem putNative_length (order : ByteOrder) (w x : Nat) :
    (putNative order w x).length = w := by
  cases order <;> simp [putNative, putLE_length, putBE_length]

theorem leUint_putLE (w x : Nat) : leUint (putLE w x) = x % 256 ^ w := by
  induction w generalizing x with
  | zero => simp [putLE, leUint, Nat.mod_one]
  | succ w ih =>
    simp only [putLE, leUint, ih]
    rw [Nat.pow_succ, Nat.mul_comm (256 ^ w) 256, Nat.mod_mul]

theorem beUint_foldl (l : List Byte) (acc : Nat) :
    l.foldl (fun a x => 256 * a + x.val) acc = 256 ^ l.length * acc + leUint l.reverse := by
  induction l generalizing acc with
  | nil => simp [leUint]
  | cons x rest ih =>
    have hrev : ∀ (m : List Byte) (y : Byte),
        leUint (m ++ [y]) = leUint m + 256 ^ m.length * y.val := by
      intro m y
      induction m with
      | nil => simp [leUint]
      | cons z m ihm =>
        have hc : leUint (z :: m ++ [y]) = z.val + 256 * leUint (m ++ [y]) := rfl
        rw [hc, ihm]
        simp only [leUint, List.length_cons]
        ring
    simp only [List.foldl_cons, ih, List.reverse_cons, hrev, List.length_reverse,
      List.length_cons]
    ring

theorem beUint_eq (l : List Byte) : beUint l = leUint l.reverse := by
  simp [beUint, beUint_foldl]

theorem beUint_putBE (w x : Nat) : beUint (putBE w x) = x % 256 ^ w := by
  simp [beUint_eq, putBE, leUint_putLE]

theorem slice_append_right (a r : List Byte) (lo hi : Nat) (h : a.length ≤ lo) :
    slice (a ++ r) lo hi = slice r (lo - a.length) (hi - a.length) := by
  obtain ⟨k, rfl⟩ := Nat.exists_eq_add_of_le h
  simp only [slice, List.drop_append, Nat.add_sub_cancel_left]
  congr 1
  omega

theorem slice_append_left (s r : List Byte) (n : Nat) (h : s.length = n) :
    slice (s ++ r) 0 n = s := by
  subst h
  simp [slice]

theorem idx_append_right (a r : List Byte) (i : Nat) (h : a.length ≤ i) :
    idx (a ++ r) i = idx r (i - a.length) := by
  simp [idx, List.getD_eq_getElem?_getD, List.getElem?_append_right h]

theorem nativeUint_append_right (order : ByteOrder) (a r : List Byte) (off w : Nat)
    (h : a.length ≤ off) :
    nativeUint order (a ++ r) off w = nativeUint order r (off - a.length) w := by
  have hw : off + w - a.length = off - a.length + w := by omega
  cases order <;> simp [nativeUint, slice_append_right a r off (off + w) h, hw]

theorem nativeUint_putNative (order : ByteOrder) (r : List Byte) (w x : Nat) :
    nativeUint order (putNative order w x ++ r) 0 w = x % 256 ^ w := by
  cases order
  · simp [nativeUint, putNative, slice_append_left _ r w (putLE_length w x), leUint_putLE]
  · simp [nativeUint, putNative, slice_append_left _ r w (putBE_length w x), beUint_putBE]

theorem bigEndianUint16_putBE (x : Nat) : bigEndianUint16 (putBE 2 x) = x % 65536 := by
  rw [bigEndianUint16_eq]
  simp [putBE, putLE, idx]
  omega

theorem list16 (l : List Byte) (h : l.length = 16) :
    l = [idx l 0, idx l 1, idx l 2, idx l 3, idx l 4, idx l 5, idx l 6, idx l 7,
      idx l 8, idx l 9, idx l 10, idx l 11, idx l 12, idx l 13, idx l 14, idx l 15] := by
  have h1 := slice_eq_map l 0 16 (by omega)
  have h2 : slice l 0 16 = l := by
    simp [slice, List.take_of_length_le (Nat.le_of_eq h)]
  have h3 : List.range 16 = [0, 1, 2, 3, 4, 5, 6, 7, 8, 9, 10, 11, 12, 13, 14, 15] := by
    decide
  rw [h2, h3] at h1
  simpa using h1

theorem slotAddr_not_isIPv4 (ip : IP) (h : slotAddr ip) : isIPv4 ip = false := by
  obtain ⟨hlen, i, hi, h4, hne⟩ := h
  have h2 : slice ip 0 (0 + 16) = ip := by
    simp [slice, List.take_of_length_le (Nat.le_of_eq hlen)]
  have h3 := isIPv4_slice_iff ip 0 (by omega)
  rw [h2] at h3
  cases hb : isIPv4 ip with
  | false => rfl
  | true =>
    have := h3.mp hb i h4 hi
    simp only [Nat.zero_add] at this
    exact absurd this hne

/-- The slot of a 16-byte address with a non-zero byte in [4:16) decodes to
the address. -/
theorem specEncodeAddr_decodes (ip : IP) (h : slotAddr ip) :
    ∃ s, specEncodeAddr ip = some s ∧ s.length = 16 ∧
      (if isIPv4 s then netIPv4 (idx s 0) (idx s 1) (idx s 2) (idx s 3) else s) = ip := by
  have hlen := h.1
  have hne4 : ¬ ip.length = 4 := by omega
  by_cases hpre : ip.take 12 = v4InV6Prefix
  · refine ⟨ip.drop 12 ++ List.replicate 12 0, ?_, ?_, ?_⟩
    · simp [specEncodeAddr, To4, hne4, hlen, hpre]
    · simp [hlen]
    · have hl := list16 ip hlen
      generalize idx ip 0 = a0 at hl
      generalize idx ip 1 = a1 at hl
      generalize idx ip 2 = a2 at hl
      generalize idx ip 3 = a3 at hl
      generalize idx ip 4 = a4 at hl
      generalize idx ip 5 = a5 at hl
      generalize idx ip 6 = a6 at hl
      generalize idx ip 7 = a7 at hl
      generalize idx ip 8 = a8 at hl
      generalize idx ip 9 = a9 at hl
      generalize idx ip 10 = a10 at hl
      generalize idx ip 11 = a11 at hl
      generalize idx ip 12 = a12 at hl
      generalize idx ip 13 = a13 at hl
      generalize idx ip 14 = a14 at hl
      generalize idx ip 15 = a15 at hl
      subst hl
      simp [v4InV6Prefix] at hpre
      obtain ⟨r0, r1, r2, r3, r4, r5, r6, r7, r8, r9, r10, r11⟩ := hpre
      subst r0 r1 r2 r3 r4 r5 r6 r7 r8 r9 r10 r11
      simp [isIPv4, isIPv4.loop, netIPv4, v4InV6Prefix, idx]
  · refine ⟨ip, ?_, hlen, ?_⟩
    · simp [specEncodeAddr, To4, hne4, hlen, hpre]
    · simp [slotAddr_not_isIPv4 ip h]

theorem specRecord_length (order : ByteOrder) (e : Event) (src dst : List Byte)
    (hs : src.length = 16) (hd : dst.length = 16) :
    (specRecord order e src dst).length = 104 := by
  simp [specRecord, putNative_length, putBE_length, putLE_length, hs, hd]

/-- Decoding the record of an in-range Event: every field read from the
record is the field written, the ports apart when the protocol test fails. -/
theorem UnmarshalBinary_specRecord (order : ByteOrder) (e0 e : Event) (src dst : List Byte)
    (hs : src.length = 16) (hd : dst.length = 16) (hr : e.InRange) :
    Event.UnmarshalBinary order e0 (specRecord order e src dst) =
      ({ e with
         SrcAddr := if isIPv4 src then netIPv4 (idx src 0) (idx src 1) (idx src 2) (idx src 3)
           else src
         DstAddr := if isIPv4 dst then netIPv4 (idx dst 0) (idx dst 1) (idx dst 2) (idx dst 3)
           else dst
         SrcPort := if e.Proto = 6 ∨ e.Proto = 17 then e.SrcPort else e0.SrcPort
         DstPort := if e.Proto = 6 ∨ e.Proto = 17 then e.DstPort else e0.DstPort },
       none) := by
  obtain ⟨r1, r2, r3, r4, r5, r6, r7, r8, r9, r10, r11, r12⟩ := hr
  have hlen := specRecord_length order e src dst hs hd
  have p8 : ∀ x, (putNative order 8 x).length = 8 := putNative_length order 8
  have p4 : ∀ x, (putNative order 4 x).length = 4 := putNative_length order 4
  have b2 : ∀ x, (putBE 2 x).length = 2 := putBE_length 2
  have f1 : nativeUint order (specRecord order e src dst) 0 8 = e.Start := by
    rw [specRecord, nativeUint_putNative]
    exact Nat.mod_eq_of_lt r1
  have f2 : nativeUint order (specRecord order e src dst) 8 8 = e.Timestamp := by
    rw [specRecord]
    simp [nativeUint_append_right, p8, p4, b2, hs, hd, nativeUint_putNative]
    simpa using r2
  have f3 : nativeUint order (specRecord order e src dst) 16 4 = e.ConnectionID := by
    rw [specRecord]
    simp [nativeUint_append_right, p8, p4, b2, hs, hd, nativeUint_putNative]
    simpa using r3
  have f4 : nativeUint order (specRecord order e src dst) 20 4 = e.Connmark := by
    rw [specRecord]
    simp [nativeUint_append_right, p8, p4, b2, hs, hd, nativeUint_putNative]
    simpa using r4
  have f5 : nativeUint order (specRecord order e src dst) 56 8 = e.PacketsOrig := by
    rw [specRecord]
    simp [nativeUint_append_right, p8, p4, b2, hs, hd, nativeUint_putNative]
    simpa using r5
  have f6 : nativeUint order (specRecord order e src dst) 64 8 = e.BytesOrig := by
    rw [specRecord]
    simp [nativeUint_append_right, p8, p4, b2, hs, hd, nativeUint_putNative]
    simpa using r6
  have f7 : nativeUint order (specRecord order e src dst) 72 8 = e.PacketsRet := by
    rw [specRecord]
    simp [nativeUint_append_right, p8, p4, b2, hs, hd, nativeUint_putNative]
    simpa using r7
  have f8 : nativeUint order (specRecord order e src dst) 80 8 = e.BytesRet := by
    rw [specRecord]
    simp [nativeUint_append_right, p8, p4, b2, hs, hd, nativeUint_putNative]
    simpa using r8
  have f9 : nativeUint order (specRecord order e src dst) 92 4 = e.NetNS := by
    rw [specRecord]
    simp [nativeUint_append_right, p8, p4, b2, hs, hd, nativeUint_putNative]
    simpa using r11
  have g1 : slice (specRecord order e src dst) 24 40 = src := by
    rw [specRecord]
    simp [slice_append_right, p8, p4, b2, hs, hd, slice_append_left]
  have g2 : slice (specRecord order e src dst) 40 56 = dst := by
    rw [specRecord]
    simp [slice_append_right, p8, p4, b2, hs, hd, slice_append_left]
  have g3 : bigEndianUint16 (slice (specRecord order e src dst) 88 90) = e.SrcPort := by
    rw [specRecord]
    simp [slice_append_right, p8, p4, b2, hs, hd, slice_append_left, bigEndianUint16_putBE]
    simpa using r9
  have g4 : bigEndianUint16 (slice (specRecord order e src dst) 90 92) = e.DstPort := by
    rw [specRecord]
    simp [slice_append_right, p8, p4, b2, hs, hd, slice_append_left, bigEndianUint16_putBE]
    simpa using r10
  have i96 : (idx (specRecord order e src dst) 96).val = e.Proto := by
    rw [specRecord]
    simp [idx_append_right, p8, p4, b2, hs, hd]
    simp [putLE, idx]
    simpa using r12
  have hi : ∀ k, k < 4 →
      idx (specRecord order e src dst) (24 + k) = idx src k ∧
      idx (specRecord order e src dst) (40 + k) = idx dst k := by
    intro k hk
    have hb := Nat.le_of_eq hlen
    have e1 := idx_slice (specRecord order e src dst) 24 40 k (by omega) (by omega)
    have e2 := idx_slice (specRecord order e src dst) 40 56 k (by omega) (by omega)
    rw [g1] at e1
    rw [g2] at e2
    exact ⟨e1.symm, e2.symm⟩
  have s0 := (hi 0 (by omega)).1
  have s1 := (hi 1 (by omega)).1
  have s2 := (hi 2 (by omega)).1
  have s3 := (hi 3 (by omega)).1
  have d0 := (hi 0 (by omega)).2
  have d1 := (hi 1 (by omega)).2
  have d2 := (hi 2 (by omega)).2
  have d3 := (hi 3 (by omega)).2
  simp only [Nat.add_zero, Nat.reduceAdd] at s0 s1 s2 s3 d0 d1 d2 d3
  simp only [Event.UnmarshalBinary, hlen, EventLength, ne_eq, not_true_eq_false, if_false,
    f1, f2, f3, f4, f5, f6, f7, f8, f9, g1, g2, g3, g4, i96, s0, s1, s2, s3, d0, d1, d2, d3]

theorem specEncodeAddr_length (ip : IP) (s : List Byte) (h : specEncodeAddr ip = some s) :
    s.length = 16 := by
  unfold specEncodeAddr To4 at h
  by_cases h4 : ip.length = 4
  · simp [h4] at h
    subst h
    simp [h4]
  · by_cases h16 : ip.length = 16
    · by_cases hpre : ip.take 12 = v4InV6Prefix
      · simp [h4, h16, hpre] at h
        subst h
        simp [h16]
      · simp [h4, h16, hpre] at h
        subst h
        exact h16
    · simp [h4, h16] at h

theorem specEncode_eq_some (order : ByteOrder) (e : Event) (b : List Byte)
    (h : specEncode order e = some b) :
    ∃ src dst, specEncodeAddr e.SrcAddr = some src ∧ specEncodeAddr e.DstAddr = some dst ∧
      b = specRecord order e src dst := by
  unfold specEncode at h
  cases hs : specEncodeAddr e.SrcAddr with
  | none => simp [hs] at h
  | some src =>
    cases hd : specEncodeAddr e.DstAddr with
    | none => simp [hs, hd] at h
    | some dst =>
      simp [hs, hd] at h
      exact ⟨src, dst, rfl, rfl, h.symm⟩

/-- What `UnmarshalBinary` makes of a 16-byte slot is a 16-byte address with
a non-zero byte in [4:16). -/
theorem decoded_slotAddr (s : List Byte) (hs : s.length = 16) :
    slotAddr (if isIPv4 s then netIPv4 (idx s 0) (idx s 1) (idx s 2) (idx s 3) else s) := by
  by_cases hv : isIPv4 s = true
  · rw [if_pos hv]
    exact ⟨by simp [netIPv4, v4InV6Prefix], 10, by omega, by omega,
      by simp [netIPv4, v4InV6Prefix, idx]⟩
  · rw [if_neg hv]
    refine ⟨hs, ?_⟩
    have h2 : slice s 0 (0 + 16) = s := by
      simp [slice, List.take_of_length_le (Nat.le_of_eq hs)]
    have h3 := isIPv4_slice_iff s 0 (by omega)
    rw [h2] at h3
    rw [h3] at hv
    push_neg at hv
    obtain ⟨i, h4, hi, hne⟩ := hv
    simp only [Nat.zero_add] at hne
    exact ⟨i, hi, h4, hne⟩

theorem roundTrips_def (order : ByteOrder) (e : Event) :
    roundTrips order e ↔
      ∃ b, specEncode order e = some b ∧
        Event.UnmarshalBinary order Event.zero b = (e, none) := by
  unfold roundTrips
  cases specEncode order e with
  | none => simp
  | some b => simp

/-- C4, counterexample: two in-range Events that do not survive the round
trip. The ICMP event with source port 80 is encoded, and decodes with source
port 0. The TCP event from 2001:db8:: is encoded, and decodes with the source
address `net.IPv4(0x20, 0x01, 0x0d, 0xb8)`. -/
theorem roundTrips_fails :
    (icmpEventWithPort.InRange ∧
      (specEncode ByteOrder.littleEndian icmpEventWithPort).map
          (fun b => Event.UnmarshalBinary ByteOrder.littleEndian Event.zero b) =
        some ({ icmpEventWithPort with SrcPort := 0 }, none) ∧
      ¬ roundTrips ByteOrder.littleEndian icmpEventWithPort) ∧
    (v6ZeroSuffixEvent.InRange ∧
      (specEncode ByteOrder.littleEndian v6ZeroSuffixEvent).map
          (fun b => Event.UnmarshalBinary ByteOrder.littleEndian Event.zero b) =
        some ({ v6ZeroSuffixEvent with SrcAddr := netIPv4 0x20 0x01 0x0d 0xb8 }, none) ∧
      ¬ roundTrips ByteOrder.littleEndian v6ZeroSuffixEvent) := by
  refine ⟨⟨by decide, by decide, by decide⟩, ⟨by decide, by decide, by decide⟩⟩

/-- C4, amended: an in-range Event survives the round trip (encoding into the
104-byte layout, numeric fields in the byte order of the machine, ports
big-endian, an IPv4 address in the first 4 bytes of its slot, then decoding
into a zero-valued Event) exactly when its ports are zero unless the protocol
is 6 or 17 and each of its addresses is a 16-byte `net.IP` with a non-zero
byte in [4:16), as every address made by `net.IPv4` is. -/
theorem roundTrips_iff (order : ByteOrder) (e : Event) (hr : e.InRange) :
    roundTrips order e ↔ (e.portsGated ∧ slotAddr e.SrcAddr ∧ slotAddr e.DstAddr) := by
  rw [roundTrips_def]
  constructor
  · rintro ⟨b, hb, hdec⟩
    obtain ⟨src, dst, hs, hd, rfl⟩ := specEncode_eq_some order e b hb
    have hsl := specEncodeAddr_length _ _ hs
    have hdl := specEncodeAddr_length _ _ hd
    rw [UnmarshalBinary_specRecord order Event.zero e src dst hsl hdl hr] at hdec
    simp only [Prod.mk.injEq, and_true] at hdec
    have a1 := congrArg Event.SrcAddr hdec
    have a2 := congrArg Event.DstAddr hdec
    have a3 := congrArg Event.SrcPort hdec
    have a4 := congrArg Event.DstPort hdec
    simp only at a1 a2 a3 a4
    refine ⟨?_, ?_, ?_⟩
    · unfold Event.portsGated
      by_cases hp : e.Proto = 6 ∨ e.Proto = 17
      · rcases hp with hp | hp
        · exact Or.inl hp
        · exact Or.inr (Or.inl hp)
      · rw [if_neg hp] at a3 a4
        exact Or.inr (Or.inr ⟨a3.symm, a4.symm⟩)
    · rw [← a1]
      exact decoded_slotAddr src hsl
    · rw [← a2]
      exact decoded_slotAddr dst hdl
  · rintro ⟨hp, hs, hd⟩
    obtain ⟨src, hs1, hs2, hs3⟩ := specEncodeAddr_decodes e.SrcAddr hs
    obtain ⟨dst, hd1, hd2, hd3⟩ := specEncodeAddr_decodes e.DstAddr hd
    refine ⟨specRecord order e src dst, by simp [specEncode, hs1, hd1], ?_⟩
    rw [UnmarshalBinary_specRecord order Event.zero e src dst hs2 hd2 hr, hs3, hd3]
    have p1 : (if e.Proto = 6 ∨ e.Proto = 17 then e.SrcPort else Event.zero.SrcPort) =
        e.SrcPort := by
      by_cases hq : e.Proto = 6 ∨ e.Proto = 17
      · rw [if_pos hq]
      · rw [if_neg hq]
        rcases hp with hp | hp | hp
        · exact absurd (Or.inl hp) hq
        · exact absurd (Or.inr hp) hq
        · exact hp.1.symm
    have p2 : (if e.Proto = 6 ∨ e.Proto = 17 then e.DstPort else Event.zero.DstPort) =
        e.DstPort := by
      by_cases hq : e.Proto = 6 ∨ e.Proto = 17
      · rw [if_pos hq]
      · rw [if_neg hq]
        rcases hp with hp | hp | hp
        · exact absurd (Or.inl hp) hq
        · exact absurd (Or.inr hp) hq
        · exact hp.2.symm
    rw [p1, p2]

/-- Witness of C4, amended: the UDP event survives the round trip. -/
theorem roundTrips_iff_witness :
    udpEvent.InRange ∧ roundTrips ByteOrder.littleEndian udpEvent :=
  ⟨by decide,
    (roundTrips_iff ByteOrder.littleEndian udpEvent (by decide)).mpr
      ⟨by decide, by decide, by decide⟩⟩

/-! ## The lifecycle -/

/-- C6: `Start` on a Probe whose started flag is set returns `errProbeStarted`
and `Stop` on a Probe whose started flag is not set returns
`errProbeNotStarted`; in both cases the Probe after the call is the Probe
before the call, every field of it. -/
theorem lifecycle_misuse_no_change (elf : Elf) (ap : Probe) :
    (ap.started = true → ap.Start elf = (ap, some Error.errProbeStarted)) ∧
    (ap.started = false →
      ap.Stop elf = (ap, Outcome.returned (some Error.errProbeNotStarted))) := by
  constructor
  · intro h
    simp [Probe.Start, h]
  · intro h
    simp [Probe.Stop, h]

/-- Witness of C6: a second `Start` on the started Probe, and `Stop` on the
Probe that was never started. -/
theorem lifecycle_misuse_no_change_witness :
    (startedProbe.started = true ∧
      startedProbe.Start okElf = (startedProbe, some Error.errProbeStarted)) ∧
    (loadedProbe.started = false ∧
      loadedProbe.Stop okElf =
        (loadedProbe, Outcome.returned (some Error.errProbeNotStarted))) :=
  ⟨⟨by decide, (lifecycle_misuse_no_change okElf startedProbe).1 (by decide)⟩,
    ⟨by decide, (lifecycle_misuse_no_change okElf loadedProbe).2 (by decide)⟩⟩

/-- `Stop` never writes the started flag. -/
theorem Stop_started (elf : Elf) (ap : Probe) : (ap.Stop elf).1.started = ap.started := by
  unfold Probe.Stop
  by_cases h : ap.started = true
  · simp only [h, Bool.not_true, Bool.false_eq_true, if_false]
    repeat' split
    all_goals rfl
  · simp [h]

/-- Every `Stop` on a Probe whose started flag is set calls `Close` on the
module. -/
theorem Stop_closeCalls (elf : Elf) (ap : Probe) (h : ap.started = true) :
    (ap.Stop elf).1.module.closeCalls = ap.module.closeCalls + 1 := by
  unfold Probe.Stop
  simp only [h, Bool.not_true, Bool.false_eq_true, if_false]
  repeat' split
  all_goals rfl

/-- After `Start`, no number of calls of `Stop` brings the guard of `Stop`
back: a second `Stop` calls `Close` on the module a second time. -/
theorem Stop_again_calls_Close (elf1 elf2 : Elf) (ap : Probe) (h : ap.started = true) :
    (ap.Stop elf1).1.started = true ∧
    ((ap.Stop elf1).1.Stop elf2).1.module.closeCalls = ap.module.closeCalls + 2 := by
  have h1 : (ap.Stop elf1).1.started = true := by rw [Stop_started, h]
  refine ⟨h1, ?_⟩
  rw [Stop_closeCalls elf2 _ h1, Stop_closeCalls elf1 ap h]

/-- C5, the code at the failing input: `Start` succeeds on the loaded Probe,
the first `Stop` returns nil and leaves the started flag set, and the second
`Stop` does not return `errProbeNotStarted`: it calls `Close` on the module a
second time and panics closing `lostChan`, which is closed already; when that
second `Close` fails, the second `Stop` returns the error of `Close`. -/
theorem Stop_twice_panics :
    (loadedProbe.Start okElf).2 = none ∧
    startedProbe.started = true ∧
    (startedProbe.Stop okElf).2 = Outcome.returned none ∧
    (startedProbe.Stop okElf).1.started = true ∧
    (startedProbe.Stop okElf).1.lostChan = some ⟨0, true⟩ ∧
    ((startedProbe.Stop okElf).1.Stop okElf).2 = Outcome.panicked ∧
    ((startedProbe.Stop okElf).1.Stop okElf).1.module.closeCalls = 2 ∧
    ((startedProbe.Stop okElf).1.Stop closeFailsElf).2 =
      Outcome.returned (some (Error.elf "close failed")) := by
  refine ⟨by decide, by decide, by decide, by decide, by decide, by decide, by decide,
    by decide⟩

/-! ## The fanout -/

theorem send_wantUpdate (c : Consumer) (ae : Event) : (c.send ae).wantUpdate = c.wantUpdate := by
  unfold Consumer.send
  split <;> rfl

theorem send_wantDestroy (c : Consumer) (ae : Event) :
    (c.send ae).wantDestroy = c.wantDestroy := by
  unfold Consumer.send
  split <;> rfl

/-- The loop of `fanoutEvent` leaves a consumer whose filter does not match
as it is, and sends to a consumer whose filter matches once for each time it
is in the list. -/
theorem fanoutLoop_apply (ae : Event) (update : Bool) (ps : List Nat) (heap : Nat → Consumer)
    (p : Nat) :
    fanoutLoop ae update ps heap p =
      if (update && (heap p).WantUpdate) || (!update && (heap p).WantDestroy) then
        (fun x : Consumer => x.send ae)^[ps.count p] (heap p)
      else heap p := by
  induction ps generalizing heap with
  | nil => simp [fanoutLoop]
  | cons q qs ih =>
    simp only [fanoutLoop]
    by_cases hq : q = p
    · subst hq
      by_cases hw : ((update && (heap q).WantUpdate) || (!update && (heap q).WantDestroy)) = true
      · have hw2 : ((update && ((heap q).send ae).WantUpdate) ||
            (!update && ((heap q).send ae).WantDestroy)) = true := by
          simpa [Consumer.WantUpdate, Consumer.WantDestroy, send_wantUpdate,
            send_wantDestroy] using hw
        rw [if_pos hw, ih, Function.update_same, if_pos hw2, if_pos hw, List.count_cons_self,
          Function.iterate_succ_apply]
      · rw [if_neg hw, ih, if_neg hw, if_neg hw]
    · have hc : (q :: qs).count p = qs.count p := by
        simp [List.count_cons, hq]
      by_cases hw : ((update && (heap q).WantUpdate) || (!update && (heap q).WantDestroy)) = true
      · have hp : Function.update heap q ((heap q).send ae) p = heap p :=
          Function.update_noteq (Ne.symm hq) _ _
        rw [if_pos hw, ih, hp, hc]
      · rw [if_neg hw, ih, hc]

theorem iterate_send_offers (ae : Event) (n : Nat) (c : Consumer) :
    ((fun x : Consumer => x.send ae)^[n] c).stats.eventsReceived +
      ((fun x : Consumer => x.send ae)^[n] c).stats.eventsLost =
      c.stats.eventsReceived + c.stats.eventsLost + n := by
  induction n generalizing c with
  | zero => rfl
  | succ n ih =>
    rw [Function.iterate_succ_apply, ih]
    unfold Consumer.send
    split
    · simp only [ConsumerStats.incrEventsReceived, ConsumerStats.setQueueLength]
      omega
    · simp only [ConsumerStats.incrEventsLost]
      omega

/-- The same event sent `n` times to one Consumer: the event is queued as
many times as the inbox has room for, every other send is counted as lost,
and the gauge holds the depth of the inbox after the last send that queued. -/
theorem iterate_send_explicit (ae : Event) (n : Nat) (c : Consumer) :
    ((fun x : Consumer => x.send ae)^[n] c).events.cap = c.events.cap ∧
    ((fun x : Consumer => x.send ae)^[n] c).events.buf =
      c.events.buf ++
        List.replicate (min n (c.events.cap - c.events.buf.length)) ae ∧
    ((fun x : Consumer => x.send ae)^[n] c).wantUpdate = c.wantUpdate ∧
    ((fun x : Consumer => x.send ae)^[n] c).wantDestroy = c.wantDestroy ∧
    ((fun x : Consumer => x.send ae)^[n] c).stats.eventsReceived =
      c.stats.eventsReceived + min n (c.events.cap - c.events.buf.length) ∧
    ((fun x : Consumer => x.send ae)^[n] c).stats.eventsLost =
      c.stats.eventsLost + (n - min n (c.events.cap - c.events.buf.length)) ∧
    ((fun x : Consumer => x.send ae)^[n] c).stats.eventQueueLength =
      if 0 < min n (c.events.cap - c.events.buf.length) then
        c.events.buf.length + min n (c.events.cap - c.events.buf.length)
      else c.stats.eventQueueLength := by
  induction n generalizing c with
  | zero => simp
  | succ n ih =>
    rw [Function.iterate_succ_apply]
    obtain ⟨i1, i2, i3, i4, i5, i6, i7⟩ := ih (c.send ae)
    by_cases hroom : c.events.buf.length < c.events.cap
    · have h1 : (c.send ae).events.cap = c.events.cap := by
        simp [Consumer.send, hroom]
      have h2 : (c.send ae).events.buf = c.events.buf ++ [ae] := by
        simp [Consumer.send, hroom]
      have h3 : (c.send ae).stats.eventsReceived = c.stats.eventsReceived + 1 := by
        simp [Consumer.send, hroom, ConsumerStats.incrEventsReceived,
          ConsumerStats.setQueueLength]
      have h4 : (c.send ae).stats.eventsLost = c.stats.eventsLost := by
        simp [Consumer.send, hroom, ConsumerStats.incrEventsReceived,
          ConsumerStats.setQueueLength]
      have h5 : (c.send ae).stats.eventQueueLength = c.events.buf.length + 1 := by
        simp [Consumer.send, hroom, ConsumerStats.incrEventsReceived,
          ConsumerStats.setQueueLength]
      have hm : min (n + 1) (c.events.cap - c.events.buf.length) =
          min n (c.events.cap - (c.events.buf.length + 1)) + 1 := by omega
      rw [h1, h2, List.length_append, List.length_singleton] at i2 i5 i6 i7
      rw [h1] at i1
      rw [h3] at i5
      rw [h4] at i6
      rw [h5] at i7
      rw [send_wantUpdate] at i3
      rw [send_wantDestroy] at i4
      refine ⟨i1, ?_, i3, i4, ?_, ?_, ?_⟩
      · rw [i2, hm, List.replicate_succ, List.append_assoc, List.singleton_append]
      · rw [i5, hm]; omega
      · rw [i6, hm]; omega
      · rw [i7, hm, if_pos (Nat.succ_pos _)]
        split <;> omega
    · have h1 : (c.send ae).events = c.events := by
        simp [Consumer.send, hroom]
      have h3 : (c.send ae).stats.eventsReceived = c.stats.eventsReceived := by
        simp [Consumer.send, hroom, ConsumerStats.incrEventsLost]
      have h4 : (c.send ae).stats.eventsLost = c.stats.eventsLost + 1 := by
        simp [Consumer.send, hroom, ConsumerStats.incrEventsLost]
      have h5 : (c.send ae).stats.eventQueueLength = c.stats.eventQueueLength := by
        simp [Consumer.send, hroom, ConsumerStats.incrEventsLost]
      have hz : c.events.cap - c.events.buf.length = 0 := by omega
      rw [h1, hz, Nat.min_zero] at i2 i5 i6 i7
      rw [h1] at i1
      rw [h3] at i5
      rw [h4] at i6
      rw [h5] at i7
      rw [send_wantUpdate] at i3
      rw [send_wantDestroy] at i4
      rw [hz, Nat.min_zero]
      refine ⟨i1, i2, i3, i4, i5, ?_, i7⟩
      rw [i6]; omega

/-- C8: `fanoutEvent` leaves a Consumer as it is, inbox and counters, unless
the event is an update and the Consumer wants updates or the event is a
destroy and the Consumer wants destroys. So a destroy event leaves a Consumer
that wants updates only untouched, and an update event leaves a Consumer that
wants destroys only untouched. A Consumer whose filter matches the event, as
the filter of a Consumer that wants both does for every event, update or
destroy, is sent that very event once for each time it is registered: the
event is appended to its inbox as many times as the inbox has room for, the
received counter grows by that number, the lost counter by the number of
sends that found the inbox full, and nothing else of the inbox changes. For a
Consumer registered once this is: the event is appended to the inbox and
counted as received when the inbox has room, and counted as lost with the
inbox unchanged when it has not. -/
theorem fanoutEvent_filter (ap : Probe) (ae : Event) (update : Bool) (p : Nat) :
    (¬ ((update = true ∧ (ap.heap p).wantUpdate = true) ∨
          (update = false ∧ (ap.heap p).wantDestroy = true)) →
      (ap.fanoutEvent ae update).heap p = ap.heap p) ∧
    ((ap.heap p).wantUpdate = true → (ap.heap p).wantDestroy = false →
      (ap.fanoutEvent ae false).heap p = ap.heap p) ∧
    ((ap.heap p).wantUpdate = false → (ap.heap p).wantDestroy = true →
      (ap.fanoutEvent ae true).heap p = ap.heap p) ∧
    ((ap.heap p).wantUpdate = true → (ap.heap p).wantDestroy = true →
      ((ap.fanoutEvent ae update).heap p).stats.eventsReceived +
          ((ap.fanoutEvent ae update).heap p).stats.eventsLost =
        (ap.heap p).stats.eventsReceived + (ap.heap p).stats.eventsLost +
          ap.consumers.count p) ∧
    (((update = true ∧ (ap.heap p).wantUpdate = true) ∨
          (update = false ∧ (ap.heap p).wantDestroy = true)) →
      ((ap.fanoutEvent ae update).heap p).events.cap = (ap.heap p).events.cap ∧
      ((ap.fanoutEvent ae update).heap p).events.buf =
        (ap.heap p).events.buf ++
          List.replicate
            (min (ap.consumers.count p)
              ((ap.heap p).events.cap - (ap.heap p).events.buf.length)) ae ∧
      ((ap.fanoutEvent ae update).heap p).wantUpdate = (ap.heap p).wantUpdate ∧
      ((ap.fanoutEvent ae update).heap p).wantDestroy = (ap.heap p).wantDestroy ∧
      ((ap.fanoutEvent ae update).heap p).stats.eventsReceived =
        (ap.heap p).stats.eventsReceived +
          min (ap.consumers.count p)
            ((ap.heap p).events.cap - (ap.heap p).events.buf.length) ∧
      ((ap.fanoutEvent ae update).heap p).stats.eventsLost =
        (ap.heap p).stats.eventsLost +
          (ap.consumers.count p -
            min (ap.consumers.count p)
              ((ap.heap p).events.cap - (ap.heap p).events.buf.length))) ∧
    ((ap.heap p).wantUpdate = true → (ap.heap p).wantDestroy = true →
      ap.consumers.Nodup → p ∈ ap.consumers →
      ((ap.heap p).events.buf.length < (ap.heap p).events.cap →
        ((ap.fanoutEvent ae update).heap p).events.buf = (ap.heap p).events.buf ++ [ae] ∧
        ((ap.fanoutEvent ae update).heap p).stats.eventsReceived =
          (ap.heap p).stats.eventsReceived + 1 ∧
        ((ap.fanoutEvent ae update).heap p).stats.eventsLost =
          (ap.heap p).stats.eventsLost ∧
        ((ap.fanoutEvent ae update).heap p).stats.eventQueueLength =
          (ap.heap p).events.buf.length + 1) ∧
      (¬ (ap.heap p).events.buf.length < (ap.heap p).events.cap →
        ((ap.fanoutEvent ae update).heap p).events.buf = (ap.heap p).events.buf ∧
        ((ap.fanoutEvent ae update).heap p).stats.eventsReceived =
          (ap.heap p).stats.eventsReceived ∧
        ((ap.fanoutEvent ae update).heap p).stats.eventsLost =
          (ap.heap p).stats.eventsLost + 1 ∧
        ((ap.fanoutEvent ae update).heap p).stats.eventQueueLength =
          (ap.heap p).stats.eventQueueLength)) := by
  have key : ∀ u : Bool, (ap.fanoutEvent ae u).heap p =
      if (u && (ap.heap p).WantUpdate) || (!u && (ap.heap p).WantDestroy) then
        (fun x : Consumer => x.send ae)^[ap.consumers.count p] (ap.heap p)
      else ap.heap p := fun u => fanoutLoop_apply ae u ap.consumers ap.heap p
  have hboth : (ap.heap p).wantUpdate = true → (ap.heap p).wantDestroy = true →
      ((update && (ap.heap p).WantUpdate) || (!update && (ap.heap p).WantDestroy)) = true := by
    intro hu hd
    cases update <;> simp [Consumer.WantUpdate, Consumer.WantDestroy, hu, hd]
  obtain ⟨e1, e2, e3, e4, e5, e6, e7⟩ :=
    iterate_send_explicit ae (ap.consumers.count p) (ap.heap p)
  refine ⟨?_, ?_, ?_, ?_, ?_, ?_⟩
  · intro h
    rw [key, if_neg]
    intro hw
    apply h
    cases update <;> simp_all [Consumer.WantUpdate, Consumer.WantDestroy]
  · intro hu hd
    rw [key, if_neg]
    simp [Consumer.WantUpdate, Consumer.WantDestroy, hu, hd]
  · intro hu hd
    rw [key, if_neg]
    simp [Consumer.WantUpdate, Consumer.WantDestroy, hu, hd]
  · intro hu hd
    rw [key, if_pos (hboth hu hd), iterate_send_offers]
  · intro hm
    have hw : ((update && (ap.heap p).WantUpdate) || (!update && (ap.heap p).WantDestroy)) =
        true := by
      rcases hm with ⟨h1, h2⟩ | ⟨h1, h2⟩
      · simp [Consumer.WantUpdate, h1, h2]
      · simp [Consumer.WantDestroy, h1, h2]
    rw [key, if_pos hw]
    exact ⟨e1, e2, e3, e4, e5, e6⟩
  · intro hu hd hnd hreg
    have hc : ap.consumers.count p = 1 := List.count_eq_one_of_mem hnd hreg
    rw [key, if_pos (hboth hu hd)]
    rw [hc] at e2 e5 e6 e7
    rw [hc]
    constructor
    · intro hroom
      have hm : min 1 ((ap.heap p).events.cap - (ap.heap p).events.buf.length) = 1 := by
        omega
      rw [hm] at e2 e5 e6 e7
      exact ⟨e2, e5, e6, by rw [e7]; simp⟩
    · intro hfull
      have hm : min 1 ((ap.heap p).events.cap - (ap.heap p).events.buf.length) = 0 := by
        omega
      rw [hm] at e2 e5 e6 e7
      exact ⟨by simpa using e2, e5, e6, by rw [e7]; simp⟩

/-- Witness of C8: on the Probe of the examples a destroy event leaves
consumer 0 (updates only) untouched, an update event leaves consumer 1
(destroys only) untouched, and consumer 2 (both) holds the event in its inbox
after a destroy event as well as after an update event. -/
theorem fanoutEvent_filter_witness :
    (loadedProbe.fanoutEvent udpEvent false).heap 0 = loadedProbe.heap 0 ∧
    (loadedProbe.fanoutEvent udpEvent true).heap 1 = loadedProbe.heap 1 ∧
    ((loadedProbe.fanoutEvent udpEvent false).heap 2).events.buf = [udpEvent] ∧
    ((loadedProbe.fanoutEvent udpEvent true).heap 2).events.buf = [udpEvent] ∧
    ((loadedProbe.fanoutEvent udpEvent true).heap 2).stats.eventsReceived = 1 :=
  ⟨(fanoutEvent_filter loadedProbe udpEvent false 0).2.1 (by decide) (by decide),
    (fanoutEvent_filter loadedProbe udpEvent true 1).2.2.1 (by decide) (by decide),
    ((fanoutEvent_filter loadedProbe udpEvent false 2).2.2.2.2.2 (by decide) (by decide)
      (by decide) (by decide)).1 (by decide) |>.1,
    ((fanoutEvent_filter loadedProbe udpEvent true 2).2.2.2.2.2 (by decide) (by decide)
      (by decide) (by decide)).1 (by decide) |>.1,
    ((fanoutEvent_filter loadedProbe udpEvent true 2).2.2.2.2.2 (by decide) (by decide)
      (by decide) (by decide)).1 (by decide) |>.2.1⟩

/-- Sends to one Consumer that is never drained: from an inbox of depth `l`
within its capacity, `n` sends queue events until the inbox is full and count
every other send as lost. -/
theorem foldl_send_stats (evs : List (Event × Bool)) (c : Consumer)
    (hl : c.events.buf.length ≤ c.events.cap)
    (hg : c.stats.eventQueueLength = c.events.buf.length) :
    (evs.foldl (fun x ev => x.send ev.1) c).events.cap = c.events.cap ∧
    (evs.foldl (fun x ev => x.send ev.1) c).events.buf.length =
      min (c.events.buf.length + evs.length) c.events.cap ∧
    (evs.foldl (fun x ev => x.send ev.1) c).stats.eventsReceived =
      c.stats.eventsReceived +
        (min (c.events.buf.length + evs.length) c.events.cap - c.events.buf.length) ∧
    (evs.foldl (fun x ev => x.send ev.1) c).stats.eventsLost =
      c.stats.eventsLost +
        (evs.length -
          (min (c.events.buf.length + evs.length) c.events.cap - c.events.buf.length)) ∧
    (evs.foldl (fun x ev => x.send ev.1) c).stats.eventQueueLength =
      (evs.foldl (fun x ev => x.send ev.1) c).events.buf.length := by
  induction evs generalizing c with
  | nil =>
    refine ⟨rfl, ?_, ?_, ?_, hg⟩ <;>
      simp only [List.foldl_nil, List.length_nil, Nat.add_zero] <;> omega
  | cons ev rest ih =>
    simp only [List.foldl_cons, List.length_cons]
    by_cases hroom : c.events.buf.length < c.events.cap
    · have h1 : (c.send ev.1).events.cap = c.events.cap := by
        simp [Consumer.send, hroom]
      have h2 : (c.send ev.1).events.buf.length = c.events.buf.length + 1 := by
        simp [Consumer.send, hroom]
      have h3 : (c.send ev.1).stats.eventsReceived = c.stats.eventsReceived + 1 := by
        simp [Consumer.send, hroom, ConsumerStats.incrEventsReceived,
          ConsumerStats.setQueueLength]
      have h4 : (c.send ev.1).stats.eventsLost = c.stats.eventsLost := by
        simp [Consumer.send, hroom, ConsumerStats.incrEventsReceived,
          ConsumerStats.setQueueLength]
      have h5 : (c.send ev.1).stats.eventQueueLength = (c.send ev.1).events.buf.length := by
        simp [Consumer.send, hroom, ConsumerStats.incrEventsReceived,
          ConsumerStats.setQueueLength]
      obtain ⟨i1, i2, i3, i4, i5⟩ := ih (c.send ev.1) (by omega) h5
      rw [h1, h2] at i2 i3 i4
      rw [h1] at i1
      rw [h3] at i3
      rw [h4] at i4
      refine ⟨i1, ?_, ?_, ?_, i5⟩
      · rw [i2]; congr 1; omega
      · rw [i3]; omega
      · rw [i4]; omega
    · have h1 : (c.send ev.1).events = c.events := by
        simp [Consumer.send, hroom]
      have h3 : (c.send ev.1).stats.eventsReceived = c.stats.eventsReceived := by
        simp [Consumer.send, hroom, ConsumerStats.incrEventsLost]
      have h4 : (c.send ev.1).stats.eventsLost = c.stats.eventsLost + 1 := by
        simp [Consumer.send, hroom, ConsumerStats.incrEventsLost]
      have h5 : (c.send ev.1).stats.eventQueueLength = (c.send ev.1).events.buf.length := by
        simp [Consumer.send, hroom, ConsumerStats.incrEventsLost, hg]
      obtain ⟨i1, i2, i3, i4, i5⟩ := ih (c.send ev.1) (by rw [h1]; exact hl) h5
      rw [h1] at i1 i2 i3 i4
      rw [h3] at i3
      rw [h4] at i4
      refine ⟨i1, ?_, ?_, ?_, i5⟩
      · rw [i2]; omega
      · rw [i3]; omega
      · rw [i4]; omega

/-- A Consumer registered once and offered only events its filter matches is
sent every one of them. -/
theorem fanoutAll_apply (ap : Probe) (p : Nat) (evs : List (Event × Bool))
    (hnd : ap.consumers.Nodup) (hreg : p ∈ ap.consumers)
    (hmatch : ∀ ev ∈ evs, (ev.2 = true ∧ (ap.heap p).wantUpdate = true) ∨
      (ev.2 = false ∧ (ap.heap p).wantDestroy = true)) :
    (ap.fanoutAll evs).heap p = evs.foldl (fun x ev => x.send ev.1) (ap.heap p) := by
  induction evs generalizing ap with
  | nil => rfl
  | cons ev rest ih =>
    have hstep : (ap.fanoutEvent ev.1 ev.2).heap p = (ap.heap p).send ev.1 := by
      have hw : ((ev.2 && (ap.heap p).WantUpdate) || (!ev.2 && (ap.heap p).WantDestroy)) =
          true := by
        rcases hmatch ev (List.mem_cons_self _ _) with ⟨h1, h2⟩ | ⟨h1, h2⟩
        · simp [Consumer.WantUpdate, h1, h2]
        · simp [Consumer.WantDestroy, h1, h2]
      have hk := fanoutLoop_apply ev.1 ev.2 ap.consumers ap.heap p
      rw [if_pos hw, List.count_eq_one_of_mem hnd hreg] at hk
      exact hk
    rw [Probe.fanoutAll, List.foldl_cons, ← hstep]
    apply ih (ap.fanoutEvent ev.1 ev.2) hnd hreg
    intro ev2 hev2
    rw [hstep, send_wantUpdate, send_wantDestroy]
    exact hmatch ev2 (List.mem_cons_of_mem _ hev2)

/-- C7: a Consumer registered once, with an empty inbox of capacity `c` and
zeroed counters, that is never drained, after `n` fanned-out events that all
match its filter: its received count is `min n c`, its lost count is
`n - min n c`, the two add up to `n`, and after every step of the fanout its
inbox and its inbox-depth gauge hold at most `c` events. -/
theorem fanoutEvent_backpressure (ap : Probe) (p : Nat) (evs : List (Event × Bool))
    (hnd : ap.consumers.Nodup) (hreg : p ∈ ap.consumers)
    (hempty : (ap.heap p).events.buf = [])
    (hzero : (ap.heap p).stats = ⟨0, 0, 0⟩)
    (hmatch : ∀ ev ∈ evs, (ev.2 = true ∧ (ap.heap p).wantUpdate = true) ∨
      (ev.2 = false ∧ (ap.heap p).wantDestroy = true)) :
    ((ap.fanoutAll evs).heap p).stats.eventsReceived =
      min evs.length (ap.heap p).events.cap ∧
    ((ap.fanoutAll evs).heap p).stats.eventsLost =
      evs.length - min evs.length (ap.heap p).events.cap ∧
    ((ap.fanoutAll evs).heap p).stats.eventsReceived +
      ((ap.fanoutAll evs).heap p).stats.eventsLost = evs.length ∧
    (∀ k, ((ap.fanoutAll (evs.take k)).heap p).events.buf.length ≤
        (ap.heap p).events.cap ∧
      ((ap.fanoutAll (evs.take k)).heap p).stats.eventQueueLength ≤
        (ap.heap p).events.cap) := by
  have hl : (ap.heap p).events.buf.length ≤ (ap.heap p).events.cap := by
    rw [hempty]; exact Nat.zero_le _
  have hg : (ap.heap p).stats.eventQueueLength = (ap.heap p).events.buf.length := by
    rw [hempty, hzero]; rfl
  have hr0 : (ap.heap p).stats.eventsReceived = 0 := by rw [hzero]
  have hk0 : (ap.heap p).stats.eventsLost = 0 := by rw [hzero]
  have hb0 : (ap.heap p).events.buf.length = 0 := by rw [hempty]; rfl
  obtain ⟨_, _, i3, i4, _⟩ := foldl_send_stats evs (ap.heap p) hl hg
  rw [← fanoutAll_apply ap p evs hnd hreg hmatch, hr0, hb0] at i3
  rw [← fanoutAll_apply ap p evs hnd hreg hmatch, hk0, hb0] at i4
  refine ⟨by rw [i3]; omega, by rw [i4]; omega, by rw [i3, i4]; omega, ?_⟩
  intro k
  have hm : ∀ ev ∈ evs.take k, (ev.2 = true ∧ (ap.heap p).wantUpdate = true) ∨
      (ev.2 = false ∧ (ap.heap p).wantDestroy = true) :=
    fun ev hev => hmatch ev (List.mem_of_mem_take hev)
  obtain ⟨_, j2, _, _, j5⟩ := foldl_send_stats (evs.take k) (ap.heap p) hl hg
  rw [← fanoutAll_apply ap p (evs.take k) hnd hreg hm] at j2 j5
  rw [j5, j2]
  exact ⟨Nat.min_le_right _ _, Nat.min_le_right _ _⟩

/-- Witness of C7: consumer 0 of the examples has capacity 1, wants updates
and is sent 3 update events: it received 1 and lost 2. -/
theorem fanoutEvent_backpressure_witness :
    ((loadedProbe.fanoutAll
        [(udpEvent, true), (Event.zero, true), (udpEvent, true)]).heap 0).stats.eventsReceived
      = 1 ∧
    ((loadedProbe.fanoutAll
        [(udpEvent, true), (Event.zero, true), (udpEvent, true)]).heap 0).stats.eventsLost
      = 2 :=
  ⟨(fanoutEvent_backpressure loadedProbe 0
      [(udpEvent, true), (Event.zero, true), (udpEvent, true)]
      (by decide) (by decide) (by decide) (by decide) (by decide)).1,
    (fanoutEvent_backpressure loadedProbe 0
      [(udpEvent, true), (Event.zero, true), (udpEvent, true)]
      (by decide) (by decide) (by decide) (by decide) (by decide)).2.1⟩

/-! ## The decode loop -/

/-- One pass of `perfWorker` on a record of the wrong length: the error is
offered on the error channel, and the zero-valued Event is fanned out all the
same. -/
theorem perfWorkerStep_wrong_length (order : ByteOrder) (ap : Probe) (r : Recv)
    (hok : r.ok = true) (hlen : r.eb.length ≠ 104) :
    ap.perfWorkerStep order r =
      (((if r.update then { ap with stats := ap.stats.incrPerfEventsUpdate }
          else { ap with stats := ap.stats.incrPerfEventsDestroy }).sendError r.errReady
          (Error.wrap (Error.incorrectLength r.eb.length)
            "error unmarshaling Event byte array")).1.fanoutEvent Event.zero r.update,
        true) := by
  simp [Probe.perfWorkerStep, hok, Event.unmarshalBinary, Event.UnmarshalBinary, EventLength,
    hlen]

/-- C9, the code at the failing input: `perfWorker` receives a 3-byte record
on the update channel, then a well-formed TCP record. The 3-byte record does
not decode and the error is taken from the error channel; yet the zero-valued
Event is fanned out for it: consumer 0 (updates only, capacity 1) holds it in
its inbox and counts it as received, consumer 2 (both types) holds it in front
of the Event of the second record, and consumer 0 loses that second Event to
the full inbox. The loop did go on to the second record. -/
theorem perfWorker_fans_out_undecoded :
    (Event.unmarshalBinary ByteOrder.littleEndian Event.zero [1, 2, 3]).2 =
      some (Error.incorrectLength 3) ∧
    (loadedProbe.perfWorker ByteOrder.littleEndian
      [⟨true, [1, 2, 3], true, true⟩, ⟨true, protoOnlyRecord 6, true, true⟩]).errDelivered =
      [Error.wrap (Error.incorrectLength 3) "error unmarshaling Event byte array"] ∧
    ((loadedProbe.perfWorker ByteOrder.littleEndian
      [⟨true, [1, 2, 3], true, true⟩, ⟨true, protoOnlyRecord 6, true, true⟩]).heap 0).events.buf =
      [Event.zero] ∧
    ((loadedProbe.perfWorker ByteOrder.littleEndian
      [⟨true, [1, 2, 3], true, true⟩, ⟨true, protoOnlyRecord 6, true, true⟩]).heap 0).stats =
      ⟨1, 1, 1⟩ ∧
    ((loadedProbe.perfWorker ByteOrder.littleEndian
      [⟨true, [1, 2, 3], true, true⟩, ⟨true, protoOnlyRecord 6, true, true⟩]).heap 2).events.buf =
      [Event.zero,
        (Event.UnmarshalBinary ByteOrder.littleEndian Event.zero (protoOnlyRecord 6)).1] ∧
    (loadedProbe.perfWorker ByteOrder.littleEndian
      [⟨true, [1, 2, 3], true, true⟩, ⟨true, protoOnlyRecord 6, true, true⟩]).stats =
      ⟨2, 0, 0⟩ := by
  refine ⟨by decide, by decide, by decide, by decide, by decide, by decide⟩

end Conntracct
